import Mathlib

/-!
Verification of the iPodyssey iTunesDB binary parser
(`src/ipodyssey/database/parser.py`, class `DatabaseParser`).

The parser is embedded shallowly: the file is a `List Nat` of bytes, the
mutable file cursor of the Python code becomes an explicit position that every
decoder receives and returns, and Python exceptions become the `Except PErr`
monad.  Unbounded `while` loops are modelled with an explicit fuel argument;
running out of fuel produces the distinguished error `PErr.noFuel`, which is a
modelling artifact and never corresponds to a behaviour of the code (a loop
that terminates in the code terminates in the model with enough fuel, and a
loop that diverges in the code yields `noFuel` for every fuel).
-/

namespace IPodyssey

/-- Python `struct.error` and the two errors `parse` raises deliberately,
plus the fuel-exhaustion marker for the modelled `while` loops. -/
inductive PErr where
  | fileNotFound
  | badSignature
  | structError
  | noFuel
deriving Repr, DecidableEq

/-- Little-endian `u32` decode of an exactly-4-byte list, as
`struct.unpack('<I', b)[0]` computes it.  (Only applied to 4-byte lists.) -/
def decodeLE (b : List Nat) : Nat :=
  match b with
  | [b0, b1, b2, b3] => b0 + 256 * b1 + 65536 * b2 + 16777216 * b3
  | _ => 0

/-- Little-endian `u32` encode, as `struct.pack('<I', v)` produces it. -/
def encodeLE (v : Nat) : List Nat :=
  [v % 256, v / 256 % 256, v / 65536 % 256, v / 16777216 % 256]

/-- Python `struct.unpack('<I', b)`: raises `struct.error` unless `b` has
exactly 4 bytes. -/
def unpackU32 (b : List Nat) : Except PErr Nat :=
  if b.length = 4 then .ok (decodeLE b) else .error .structError

/-- Python `file.read(n)` at position `pos` of file `f`: returns the bytes
actually obtained (possibly fewer than `n` at end of file) and the new
position. -/
def readBytes (f : List Nat) (pos n : Nat) : List Nat × Nat :=
  let bs := (f.drop pos).take n
  (bs, pos + bs.length)

/-- The declared total-size field of the chunk starting at `pos`: the
little-endian `u32` at bytes `pos+8 .. pos+12`. -/
def declaredTotalSize (f : List Nat) (pos : Nat) : Nat :=
  decodeLE ((f.drop (pos + 8)).take 4)

/- ASCII byte values of the 4-byte chunk signatures.  The code compares the
bytes after a permissive ASCII decode against pure-ASCII 4-character
constants; for such constants the comparison succeeds exactly when the raw
bytes are equal, so signatures are modelled as byte lists. -/

def mhbdSig : List Nat := [109, 104, 98, 100]
def mhsdSig : List Nat := [109, 104, 115, 100]
def mhltSig : List Nat := [109, 104, 108, 116]
def mhitSig : List Nat := [109, 104, 105, 116]
def mhlpSig : List Nat := [109, 104, 108, 112]
def mhypSig : List Nat := [109, 104, 121, 112]
def mhipSig : List Nat := [109, 104, 105, 112]
def mhodSig : List Nat := [109, 104, 111, 100]
def mhlaSig : List Nat := [109, 104, 108, 97]

/-- Chunk header as read by `DatabaseParser._read_header` (the version field
of the root header is read but only printed, so it is not kept). -/
structure ChunkHeader where
  signature : List Nat
  header_size : Nat
  total_size : Nat
deriving Repr, DecidableEq

/-- Embeds `DatabaseParser._read_header`.  Reads signature, header_size and
total_size; for the root `mhbd` header additionally reads the version and
skips `header_size - 16` bytes (Python `read` with a negative argument reads
the whole rest of the file, which we model by reading `f.length` bytes). -/
def readHeader (f : List Nat) (pos : Nat) : Except PErr (ChunkHeader × Nat) := do
  let (sig, p1) := readBytes f pos 4
  let (hszB, p2) := readBytes f p1 4
  let hsz ← unpackU32 hszB
  let (tszB, p3) := readBytes f p2 4
  let _tsz ← unpackU32 tszB
  let tsz := decodeLE tszB
  if sig = mhbdSig then do
    let (verB, p4) := readBytes f p3 4
    let _ ← unpackU32 verB
    let skipN := if 16 ≤ hsz then hsz - 16 else f.length
    let (_, p5) := readBytes f p4 skipN
    .ok (⟨sig, hsz, tsz⟩, p5)
  else
    .ok (⟨sig, hsz, tsz⟩, p3)

/-- Seconds between 1 Jan 1904 and 1 Jan 1970 (`ITUNES_EPOCH_OFFSET`). -/
def ITUNES_EPOCH_OFFSET : Nat := 2082844800

/-- Embeds `DatabaseParser._convert_itunes_timestamp`.  A returned
`datetime.fromtimestamp u` is represented by its Unix seconds `u`.  The Python
code computes `timestamp - 2082844800` in ℤ and requires the result `> 0`,
which for natural `timestamp` is `ITUNES_EPOCH_OFFSET < timestamp`. -/
def convertItunesTimestamp (timestamp : Nat) : Option Nat :=
  if timestamp ≠ 0 then
    if ITUNES_EPOCH_OFFSET < timestamp then some (timestamp - ITUNES_EPOCH_OFFSET)
    else none
  else none

/-- The `Track` dataclass.  Decoded strings are lists of Unicode code points;
timestamps are Unix seconds. -/
structure Track where
  id : Nat := 0
  title : List Nat := []
  artist : List Nat := []
  album : List Nat := []
  genre : List Nat := []
  file_path : List Nat := []
  file_size : Nat := 0
  total_time_ms : Nat := 0
  track_number : Nat := 0
  track_count : Nat := 0
  year : Nat := 0
  bitrate : Nat := 0
  sample_rate : Nat := 0
  play_count : Nat := 0
  last_played : Option Nat := none
  date_added : Option Nat := none
  rating : Nat := 0
  bpm : Nat := 0
  compilation : Bool := false
  file_type : List Nat := []
deriving Repr, DecidableEq

/-- The `Playlist` dataclass. -/
structure Playlist where
  id : Nat
  name : List Nat
  track_ids : List Nat := []
  is_smart : Bool := false
  timestamp : Option Nat := none
deriving Repr, DecidableEq

/-- Python slice `data[a:a+4]`. -/
def sliceU32 (data : List Nat) (a : Nat) : List Nat :=
  (data.drop a).take 4

/-- Python `str.rstrip('\x00')` on a decoded string, represented as the list
of its code points. -/
def rstripNul (s : List Nat) : List Nat :=
  (s.reverse.dropWhile (fun c => c == 0)).reverse

/-- UTF-8 encoding of one Unicode scalar value (`str.encode('utf-8')`,
per character). -/
def utf8EncodeChar (c : Nat) : List Nat :=
  if c < 128 then [c]
  else if c < 2048 then [192 + c / 64, 128 + c % 64]
  else if c < 65536 then [224 + c / 4096, 128 + c / 64 % 64, 128 + c % 64]
  else [240 + c / 262144, 128 + c / 4096 % 64, 128 + c / 64 % 64, 128 + c % 64]

/-- UTF-8 encoding of a string (list of Unicode scalar values). -/
def utf8Encode : List Nat → List Nat
  | [] => []
  | c :: cs => utf8EncodeChar c ++ utf8Encode cs

/-- Recursion core of the UTF-8 decoder, structurally recursive on a fuel
argument; each decoded or skipped unit consumes one fuel, so any fuel of at
least the byte-list length suffices. -/
def utf8DecodeAux : Nat → List Nat → List Nat
  | 0, _ => []
  | _ + 1, [] => []
  | fuel + 1, b0 :: rest =>
    if b0 < 128 then b0 :: utf8DecodeAux fuel rest
    else if 194 ≤ b0 ∧ b0 < 224 then
      match rest with
      | [] => []
      | b1 :: rest1 =>
        if 128 ≤ b1 ∧ b1 < 192 then
          ((b0 - 192) * 64 + (b1 - 128)) :: utf8DecodeAux fuel rest1
        else utf8DecodeAux fuel (b1 :: rest1)
    else if 224 ≤ b0 ∧ b0 < 240 then
      match rest with
      | b1 :: b2 :: rest2 =>
        if (128 ≤ b1 ∧ b1 < 192) ∧ (128 ≤ b2 ∧ b2 < 192) then
          ((b0 - 224) * 4096 + (b1 - 128) * 64 + (b2 - 128)) :: utf8DecodeAux fuel rest2
        else utf8DecodeAux fuel rest
      | _ => []
    else if 240 ≤ b0 ∧ b0 < 245 then
      match rest with
      | b1 :: b2 :: b3 :: rest3 =>
        if (128 ≤ b1 ∧ b1 < 192) ∧ (128 ≤ b2 ∧ b2 < 192) ∧ (128 ≤ b3 ∧ b3 < 192) then
          ((b0 - 240) * 262144 + (b1 - 128) * 4096 + (b2 - 128) * 64 + (b3 - 128)) ::
            utf8DecodeAux fuel rest3
        else utf8DecodeAux fuel rest
      | _ => []
    else utf8DecodeAux fuel rest

/-- Models `bytes.decode('utf-8', errors='ignore')`: well-formed sequences
decode to their scalar values; ill-formed bytes are skipped without error.
Faithful on every valid UTF-8 encoding, which is all the round-trip theorems
evaluate it on. -/
def utf8Decode (l : List Nat) : List Nat :=
  utf8DecodeAux l.length l

/-- UTF-16-LE encoding of one Unicode scalar value (`str.encode('utf-16-le')`,
per character): one code unit below 0x10000, a surrogate pair above. -/
def utf16leEncodeChar (c : Nat) : List Nat :=
  if c < 65536 then [c % 256, c / 256]
  else
    [(55296 + (c - 65536) / 1024) % 256, (55296 + (c - 65536) / 1024) / 256,
     (56320 + (c - 65536) % 1024) % 256, (56320 + (c - 65536) % 1024) / 256]

/-- UTF-16-LE encoding of a string (list of Unicode scalar values). -/
def utf16leEncode : List Nat → List Nat
  | [] => []
  | c :: cs => utf16leEncodeChar c ++ utf16leEncode cs

/-- Recursion core of the UTF-16-LE decoder, structurally recursive on a fuel
argument; each decoded or skipped code unit consumes one fuel. -/
def utf16leDecodeAux : Nat → List Nat → List Nat
  | 0, _ => []
  | _ + 1, [] => []
  | _ + 1, [_] => []
  | fuel + 1, b0 :: b1 :: rest =>
    if b0 + 256 * b1 < 55296 ∨ 57344 ≤ b0 + 256 * b1 then
      (b0 + 256 * b1) :: utf16leDecodeAux fuel rest
    else if b0 + 256 * b1 < 56320 then
      match rest with
      | b2 :: b3 :: rest2 =>
        if 56320 ≤ b2 + 256 * b3 ∧ b2 + 256 * b3 < 57344 then
          (65536 + (b0 + 256 * b1 - 55296) * 1024 + (b2 + 256 * b3 - 56320)) ::
            utf16leDecodeAux fuel rest2
        else utf16leDecodeAux fuel rest
      | _ => []
    else utf16leDecodeAux fuel rest

/-- Models `bytes.decode('utf-16-le', errors='ignore')`: pairs of bytes form
code units, surrogate pairs combine, lone surrogates and trailing odd bytes
are skipped without error.  Faithful on every valid UTF-16-LE encoding. -/
def utf16leDecode (l : List Nat) : List Nat :=
  utf16leDecodeAux l.length l

/-- A valid logical text: every element is a Unicode scalar value (below
0x110000 and not a surrogate). -/
def ValidText (s : List Nat) : Prop :=
  ∀ c ∈ s, c < 1114112 ∧ ¬(55296 ≤ c ∧ c < 57344)

/-- Embeds `DatabaseParser._parse_string_section`.  Returns `none` with the
cursor rewound when the signature at the cursor is not `mhod`; otherwise
decodes the string and force-sets the cursor to `pos + total_size`. -/
def parseStringSection (f : List Nat) (pos : Nat) :
    Except PErr (Option (Nat × List Nat) × Nat) := do
  let (sig, p1) := readBytes f pos 4
  if sig.length < 4 ∨ sig ≠ mhodSig then
    .ok (none, pos)
  else do
    let (hszB, p2) := readBytes f p1 4
    let _hsz ← unpackU32 hszB
    let (tszB, p3) := readBytes f p2 4
    let tsz ← unpackU32 tszB
    let (styB, p4) := readBytes f p3 4
    let string_type ← unpackU32 styB
    let (_, p5) := readBytes f p4 16
    let (lenB, p6) := readBytes f p5 4
    let string_length ← unpackU32 lenB
    let (encB, p7) := readBytes f p6 4
    let encoding ← unpackU32 encB
    let text :=
      if 0 < string_length ∧ string_length < 10000 then
        let (string_bytes, _) := readBytes f p7 string_length
        if encoding = 1 then rstripNul (utf16leDecode string_bytes)
        else rstripNul (utf8Decode string_bytes)
      else []
    .ok (some (string_type, text), pos + tsz)

/-- Embeds the fixed-offset field extraction of `DatabaseParser._parse_track`
(lines 215–239): each field is decoded from its 4-byte slice only when the
payload is long enough (`len(data) > offset+4`), otherwise it keeps its
default. -/
def parseTrackFields (data : List Nat) : Track :=
  let t : Track :=
    { id := if data.length > 8 then decodeLE (sliceU32 data 4) else 0
      total_time_ms := if data.length > 16 then decodeLE (sliceU32 data 12) else 0
      file_size := if data.length > 20 then decodeLE (sliceU32 data 16) else 0 }
  let t := if data.length > 36 then { t with bitrate := decodeLE (sliceU32 data 32) } else t
  let t := if data.length > 40 then { t with sample_rate := decodeLE (sliceU32 data 36) } else t
  let t := if data.length > 48 then { t with track_number := decodeLE (sliceU32 data 44) } else t
  let t := if data.length > 52 then { t with track_count := decodeLE (sliceU32 data 48) } else t
  let t := if data.length > 56 then { t with year := decodeLE (sliceU32 data 52) } else t
  let t := if data.length > 84 then { t with play_count := decodeLE (sliceU32 data 80) } else t
  let t :=
    if data.length > 92 then
      let added_time := decodeLE (sliceU32 data 88)
      if added_time ≠ 0 then { t with date_added := convertItunesTimestamp added_time } else t
    else t
  t

/-- The string-section loop of `DatabaseParser._parse_track`: while the
cursor is before `track_end`, parse an `mhod` and assign its text to the
attribute selected by its type tag; a non-`mhod` breaks the loop. -/
def parseTrackStringsLoop (fuel : Nat) (f : List Nat) (pos track_end : Nat) (t : Track) :
    Except PErr (Track × Nat) :=
  match fuel with
  | 0 => .error .noFuel
  | fuel + 1 =>
    if pos < track_end then do
      let (res, p') ← parseStringSection f pos
      match res with
      | some (string_type, text) =>
        let t :=
          if string_type = 1 then { t with title := text }
          else if string_type = 2 then { t with file_path := text }
          else if string_type = 3 then { t with album := text }
          else if string_type = 4 then { t with artist := text }
          else if string_type = 5 then { t with genre := text }
          else t
        parseTrackStringsLoop fuel f p' track_end t
      | none => .ok (t, p')
    else .ok (t, pos)

/-- Embeds `DatabaseParser._parse_track`.  Returns `none` when the signature
is not `mhit`; otherwise reads `min(header_size - 12, 400)` payload bytes
(Python `read` of a negative count reads the whole rest of the file), decodes
the fixed fields and the string sections, and force-sets the cursor to
`pos + total_size`. -/
def parseTrack (fuel : Nat) (f : List Nat) (pos : Nat) :
    Except PErr (Option Track × Nat) := do
  let (hdr, p1) ← readHeader f pos
  if hdr.signature ≠ mhitSig then
    .ok (none, p1)
  else do
    let n := if hdr.header_size < 12 then f.length else min (hdr.header_size - 12) 400
    let (data, _) := readBytes f p1 n
    let t := parseTrackFields data
    let (t, _) ← parseTrackStringsLoop fuel f (pos + hdr.header_size) (pos + hdr.total_size) t
    .ok (some t, pos + hdr.total_size)

/-- Python `dict` insertion `self.tracks[k] = v`: overwrite in place when the
key is present, append otherwise. -/
def dictInsert (d : List (Nat × Track)) (k : Nat) (v : Track) : List (Nat × Track) :=
  if d.any (fun p => p.1 = k) then d.map (fun p => if p.1 = k then (k, v) else p)
  else d ++ [(k, v)]

/-- The bounded `for` loop of `DatabaseParser._parse_track_list`: decode up to
`count` tracks, stopping at the first failed (non-`mhit`) slot. -/
def parseTracksLoop (fuel : Nat) (f : List Nat) (pos : Nat) (count : Nat)
    (tracks : List (Nat × Track)) : Except PErr (List (Nat × Track) × Nat) :=
  match count with
  | 0 => .ok (tracks, pos)
  | c + 1 => do
    let (res, p') ← parseTrack fuel f pos
    match res with
    | some t => parseTracksLoop fuel f p' c (dictInsert tracks t.id t)
    | none => .ok (tracks, p')

/-- Embeds `DatabaseParser._parse_track_list`: header must be `mhlt`, then a
4-byte track count (a short read returns early), a skip over the rest of the
header, then at most `min(track_count, 10000)` track records. -/
def parseTrackList (fuel : Nat) (f : List Nat) (pos : Nat) (tracks : List (Nat × Track)) :
    Except PErr (List (Nat × Track) × Nat) := do
  let (hdr, p1) ← readHeader f pos
  if hdr.signature ≠ mhltSig then
    .ok (tracks, p1)
  else
    let (cntB, p2) := readBytes f p1 4
    if cntB.length ≥ 4 then
      let track_count := decodeLE cntB
      let p3 := if hdr.header_size > 16 then (readBytes f p2 (hdr.header_size - 16)).2 else p2
      parseTracksLoop fuel f p3 (min track_count 10000) tracks
    else
      .ok (tracks, p2)

/-- Embeds `DatabaseParser._parse_playlist_item`.  Returns `none` when the
signature is not `mhip`; otherwise skips 12 reserved bytes, reads the 4-byte
track id, and force-sets the cursor to `pos + total_size`. -/
def parsePlaylistItem (f : List Nat) (pos : Nat) : Except PErr (Option Nat × Nat) := do
  let (hdr, p1) ← readHeader f pos
  if hdr.signature ≠ mhipSig then
    .ok (none, p1)
  else do
    let (_, p2) := readBytes f p1 12
    let (idB, _) := readBytes f p2 4
    let track_id ← unpackU32 idB
    .ok (some track_id, pos + hdr.total_size)

/-- The item loop of `DatabaseParser._parse_playlist`: while the cursor is
before `playlist_end`, peek a 4-byte tag; on `mhip` decode the item and append
its id when truthy (Python `if track_id:` drops both `None` and `0`); any
other tag breaks. -/
def parsePlaylistItemsLoop (fuel : Nat) (f : List Nat) (pos playlist_end : Nat)
    (ids : List Nat) : Except PErr (List Nat × Nat) :=
  match fuel with
  | 0 => .error .noFuel
  | fuel + 1 =>
    if pos < playlist_end then
      let (sig, p1) := readBytes f pos 4
      if sig = mhipSig then do
        let (res, p') ← parsePlaylistItem f pos
        let ids :=
          match res with
          | some track_id => if track_id ≠ 0 then ids ++ [track_id] else ids
          | none => ids
        parsePlaylistItemsLoop fuel f p' playlist_end ids
      else .ok (ids, p1)
    else .ok (ids, pos)

/-- Embeds `DatabaseParser._parse_playlist`.  Returns `none` when the
signature is not `mhyp`; otherwise reads `min(header_size - 12, 100)` payload
bytes for the id, takes the first string section (whatever its type tag) as
the name, collects the item records, and force-sets the cursor to
`pos + total_size`.  The playlist value is returned even when the name is
empty and no items were found. -/
def parsePlaylist (fuel : Nat) (f : List Nat) (pos : Nat) :
    Except PErr (Option Playlist × Nat) := do
  let (hdr, p1) ← readHeader f pos
  if hdr.signature ≠ mhypSig then
    .ok (none, p1)
  else do
    let n := if hdr.header_size < 12 then f.length else min (hdr.header_size - 12) 100
    let (data, _) := readBytes f p1 n
    let pid := if data.length > 8 then decodeLE (sliceU32 data 4) else 0
    let (nameRes, p2) ← parseStringSection f (pos + hdr.header_size)
    let name := match nameRes with | some (_, text) => text | none => []
    let (ids, _) ← parsePlaylistItemsLoop fuel f p2 (pos + hdr.total_size) []
    .ok (some { id := pid, name := name, track_ids := ids }, pos + hdr.total_size)

/-- The bounded `for` loop of `DatabaseParser._parse_playlist_list`: decode up
to `count` playlists; a `None` slot is skipped but the loop continues (a
Python dataclass instance is always truthy, so every non-`None` playlist is
appended). -/
def parsePlaylistsLoop (fuel : Nat) (f : List Nat) (pos : Nat) (count : Nat)
    (pls : List Playlist) : Except PErr (List Playlist × Nat) :=
  match count with
  | 0 => .ok (pls, pos)
  | c + 1 => do
    let (res, p') ← parsePlaylist fuel f pos
    let pls := match res with | some pl => pls ++ [pl] | none => pls
    parsePlaylistsLoop fuel f p' c pls

/-- Embeds `DatabaseParser._parse_playlist_list`: header must be `mhlp`, then
a 4-byte playlist count read with `struct.unpack` (a short read raises
`struct.error`), a skip over the rest of the header (Python `read` of a
negative count reads the whole rest of the file), then at most
`min(playlist_count, 100)` playlist records. -/
def parsePlaylistList (fuel : Nat) (f : List Nat) (pos : Nat) (pls : List Playlist) :
    Except PErr (List Playlist × Nat) := do
  let (hdr, p1) ← readHeader f pos
  if hdr.signature ≠ mhlpSig then
    .ok (pls, p1)
  else do
    let (cntB, p2) := readBytes f p1 4
    let playlist_count ← unpackU32 cntB
    let skipN := if 16 ≤ hdr.header_size then hdr.header_size - 16 else f.length
    let (_, p3) := readBytes f p2 skipN
    parsePlaylistsLoop fuel f p3 (min playlist_count 100) pls

/-- One iteration of the `while True` loop of `DatabaseParser._parse_datasets`
at chunk position `pos`: `none` means the walk of this level stops, `some
next` means the walk continues at position `next` (always
`pos + total_size`). -/
def parseDatasetsStep (fuel : Nat) (f : List Nat) (pos : Nat)
    (tracks : List (Nat × Track)) (pls : List Playlist) :
    Except PErr (Option Nat × List (Nat × Track) × List Playlist) :=
  let (sig, _) := readBytes f pos 4
  if sig.length < 4 then .ok (none, tracks, pls)
  else if sig ≠ mhsdSig then .ok (none, tracks, pls)
  else do
    let (hdr, _) ← readHeader f pos
    let (nextSig, _) := readBytes f (pos + hdr.header_size) 4
    if nextSig = mhlaSig then
      .ok (some (pos + hdr.total_size), tracks, pls)
    else if nextSig = mhltSig then do
      let (tracks, _) ← parseTrackList fuel f (pos + hdr.header_size) tracks
      .ok (some (pos + hdr.total_size), tracks, pls)
    else if nextSig = mhlpSig then do
      let (pls, _) ← parsePlaylistList fuel f (pos + hdr.header_size) pls
      .ok (some (pos + hdr.total_size), tracks, pls)
    else
      .ok (some (pos + hdr.total_size), tracks, pls)

/-- The `while True` loop of `DatabaseParser._parse_datasets`, iterated with
explicit fuel. -/
def parseDatasetsLoop (fuel : Nat) (f : List Nat) (pos : Nat)
    (tracks : List (Nat × Track)) (pls : List Playlist) :
    Except PErr (List (Nat × Track) × List Playlist) :=
  match fuel with
  | 0 => .error .noFuel
  | fuel + 1 => do
    let (next, tracks, pls) ← parseDatasetsStep fuel f pos tracks pls
    match next with
    | some next => parseDatasetsLoop fuel f next tracks pls
    | none => .ok (tracks, pls)

/-- Embeds `DatabaseParser.parse` (together with `__init__`: a parse operation
runs on a fresh parser with empty accumulators).  `none` stands for a path
whose file does not exist (`FileNotFoundError`); a root signature other than
`mhbd` raises `ValueError`; otherwise the datasets are walked from
`header_size` and the accumulated tracks and playlists are returned. -/
def parseFile (fuel : Nat) (file : Option (List Nat)) :
    Except PErr (List (Nat × Track) × List Playlist) := do
  match file with
  | none => .error .fileNotFound
  | some f => do
    let (hdr, _) ← readHeader f 0
    if hdr.signature ≠ mhbdSig then
      .error .badSignature
    else
      parseDatasetsLoop fuel f hdr.header_size [] []

/-! Concrete chunk builders used to exercise the parser in the theorems.
They lay out bytes exactly as the corresponding decoders expect them. -/

/-- A string section (`mhod`) with an explicitly declared length field that
may differ from the byte payload actually present: signature, header_size 40,
total_size `40 + payload.length`, type tag, 16 reserved bytes, declared
length, encoding flag, payload. -/
def mkMhodRaw (stype enc declLen : Nat) (payload : List Nat) : List Nat :=
  mhodSig ++ encodeLE 40 ++ encodeLE (40 + payload.length) ++ encodeLE stype ++
  List.replicate 16 0 ++ encodeLE declLen ++ encodeLE enc ++ payload

/-- A well-formed string section whose declared length is the payload
length. -/
def mkMhod (stype enc : Nat) (payload : List Nat) : List Nat :=
  mkMhodRaw stype enc payload.length payload

/-- A track record (`mhit`) fixed payload of 96 bytes with the ten fixed
fields little-endian encoded at the offsets `_parse_track` reads them from:
id at 4, duration at 12, file size at 16, bitrate at 32, sample rate at 36,
track number at 44, track count at 48, year at 52, play count at 80,
date-added at 88; reserved bytes are 0.  (Written as a flat literal — the
byte at offset `o` of field `v` is `v / 256^(o - start) % 256`.) -/
def mkTrackPayload (i d fs br sr tn tc yr pc da : Nat) : List Nat :=
  [0, 0, 0, 0,
   i % 256, i / 256 % 256, i / 65536 % 256, i / 16777216 % 256,
   0, 0, 0, 0,
   d % 256, d / 256 % 256, d / 65536 % 256, d / 16777216 % 256,
   fs % 256, fs / 256 % 256, fs / 65536 % 256, fs / 16777216 % 256,
   0, 0, 0, 0, 0, 0, 0, 0, 0, 0, 0, 0,
   br % 256, br / 256 % 256, br / 65536 % 256, br / 16777216 % 256,
   sr % 256, sr / 256 % 256, sr / 65536 % 256, sr / 16777216 % 256,
   0, 0, 0, 0,
   tn % 256, tn / 256 % 256, tn / 65536 % 256, tn / 16777216 % 256,
   tc % 256, tc / 256 % 256, tc / 65536 % 256, tc / 16777216 % 256,
   yr % 256, yr / 256 % 256, yr / 65536 % 256, yr / 16777216 % 256,
   0, 0, 0, 0, 0, 0, 0, 0, 0, 0, 0, 0, 0, 0, 0, 0, 0, 0, 0, 0, 0, 0, 0, 0,
   pc % 256, pc / 256 % 256, pc / 65536 % 256, pc / 16777216 % 256,
   0, 0, 0, 0,
   da % 256, da / 256 % 256, da / 65536 % 256, da / 16777216 % 256,
   0, 0, 0, 0]

/-- A complete track record: `mhit` header with header_size = total_size =
108 followed by the 96-byte fixed payload (no string sections). -/
def mkTrackRecord (i d fs br sr tn tc yr pc da : Nat) : List Nat :=
  mhitSig ++ encodeLE 108 ++ encodeLE 108 ++ mkTrackPayload i d fs br sr tn tc yr pc da

/-- A track record whose declared header_size 32 truncates the fixed payload
read to 20 bytes (id 7 at offset 4, duration 1000 at offset 12, a value at
offset 16 whose 4 bytes end exactly at the truncation point): the scenario of
the silent default-filling claim. -/
def truncTrackRecord : List Nat :=
  mhitSig ++ encodeLE 32 ++ encodeLE 44 ++
  (List.replicate 4 0 ++ encodeLE 7 ++ List.replicate 4 0 ++ encodeLE 1000 ++ encodeLE 555)

/-- A playlist item (`mhip`) of 36 bytes: header, 12 reserved bytes, the
4-byte track id, 8 trailing bytes. -/
def mkMhip (tid : Nat) : List Nat :=
  mhipSig ++ encodeLE 36 ++ encodeLE 36 ++ List.replicate 12 0 ++ encodeLE tid ++
  List.replicate 8 0

/-- A playlist record (`mhyp`, header_size 24, total_size 175) with id 77, a
track-count field of 3, a name string section for "Mix" carrying type tag 99
(exercising that the name is taken regardless of the tag) at offset 24, and
three playlist items at offsets 67, 103 and 139 whose track ids are `a`, `b`
and `c` (little-endian at offsets 91, 127 and 163).  Written as a flat
literal. -/
def mkPlaylist3 (a b c : Nat) : List Nat :=
  [109, 104, 121, 112, 24, 0, 0, 0, 175, 0, 0, 0, 0, 0, 0, 0, 77, 0, 0, 0, 3, 0, 0, 0,
   109, 104, 111, 100, 40, 0, 0, 0, 43, 0, 0, 0, 99, 0, 0, 0, 0, 0, 0, 0, 0, 0, 0, 0,
   0, 0, 0, 0, 0, 0, 0, 0, 3, 0, 0, 0, 0, 0, 0, 0, 77, 105, 120,
   109, 104, 105, 112, 36, 0, 0, 0, 36, 0, 0, 0, 0, 0, 0, 0, 0, 0, 0, 0, 0, 0, 0, 0,
   a % 256, a / 256 % 256, a / 65536 % 256, a / 16777216 % 256,
   0, 0, 0, 0, 0, 0, 0, 0,
   109, 104, 105, 112, 36, 0, 0, 0, 36, 0, 0, 0, 0, 0, 0, 0, 0, 0, 0, 0, 0, 0, 0, 0,
   b % 256, b / 256 % 256, b / 65536 % 256, b / 16777216 % 256,
   0, 0, 0, 0, 0, 0, 0, 0,
   109, 104, 105, 112, 36, 0, 0, 0, 36, 0, 0, 0, 0, 0, 0, 0, 0, 0, 0, 0, 0, 0, 0, 0,
   c % 256, c / 256 % 256, c / 65536 % 256, c / 16777216 % 256,
   0, 0, 0, 0, 0, 0, 0, 0]

/-- A playlist record with no name section and no items: total_size equals
header_size 24. -/
def emptyPlaylistFile : List Nat :=
  mhypSig ++ encodeLE 24 ++ encodeLE 24 ++
  (List.replicate 4 0 ++ encodeLE 77 ++ encodeLE 0)

/-- A database whose single dataset chunk declares total_size 0: root `mhbd`
header (header_size 16, version 1) followed by an `mhsd` header with
header_size 12 and total_size 0 at offset 16 — the walker seeks back to
offset 16 after every iteration. -/
def zeroSizeDatasetFile : List Nat :=
  mhbdSig ++ encodeLE 16 ++ encodeLE 28 ++ encodeLE 1 ++ mhsdSig ++ encodeLE 12 ++ encodeLE 0

/-- A file holding only the 4 signature bytes `mhbd`: the root header's
`header_size` read is truncated. -/
def truncatedRootFile : List Nat :=
  mhbdSig

/-- A 12-byte file whose root signature is `XXXX`. -/
def wrongSigFile : List Nat :=
  [88, 88, 88, 88] ++ encodeLE 0 ++ encodeLE 0

/-! Helper lemmas. -/

/-- Unfolding a successful `Except` bind. -/
theorem bind_ok {α β : Type} {e : Except PErr α} {k : α → Except PErr β} {b : β}
    (h : (e >>= k) = .ok b) : ∃ a, e = .ok a ∧ k a = .ok b := by
  cases e with
  | ok a => exact ⟨a, rfl, h⟩
  | error x => simp [Bind.bind, Except.bind] at h

/-- A successful `struct.unpack('<I', b)` means exactly 4 bytes were present
and the value is their little-endian interpretation. -/
theorem unpack_ok {b : List Nat} {v : Nat} (h : unpackU32 b = .ok v) :
    b.length = 4 ∧ v = decodeLE b := by
  unfold unpackU32 at h
  split at h
  · exact ⟨by assumption, by injection h with h'; exact h'.symm⟩
  · exact absurd h (by simp)

/-- Packing then unpacking a `u32` is the identity below `2^32`. -/
theorem decodeLE_encodeLE (v : Nat) (h : v < 4294967296) : decodeLE (encodeLE v) = v := by
  show v % 256 + 256 * (v / 256 % 256) + 65536 * (v / 65536 % 256) +
      16777216 * (v / 16777216 % 256) = v
  omega

/-- When the 4-byte read following position `pos` yields a full 4 bytes, the
signature read at `pos` was itself full. -/
theorem sig_len_four (f : List Nat) (pos : Nat)
    (h : ((f.drop (pos + ((f.drop pos).take 4).length)).take 4).length = 4) :
    ((f.drop pos).take 4).length = 4 := by
  have h1 : ((f.drop pos).take 4).length = min 4 (f.length - pos) := by
    simp [List.length_take, List.length_drop]
  have h2 : ((f.drop (pos + ((f.drop pos).take 4).length)).take 4).length =
      min 4 (f.length - (pos + ((f.drop pos).take 4).length)) := by
    simp [List.length_take, List.length_drop]
  omega

/-- A successful `_read_header` reports as `total_size` exactly the declared
total-size field at `pos + 8`. -/
theorem readHeader_ok_total {f : List Nat} {pos : Nat} {hdr : ChunkHeader} {q : Nat}
    (h : readHeader f pos = .ok (hdr, q)) : hdr.total_size = declaredTotalSize f pos := by
  simp only [readHeader, readBytes] at h
  obtain ⟨hsz, hu1, h⟩ := bind_ok h
  obtain ⟨hlen4, -⟩ := unpack_ok hu1
  have hsig4 : ((f.drop pos).take 4).length = 4 := sig_len_four f pos hlen4
  rw [hsig4] at hlen4 h
  rw [hlen4] at h
  obtain ⟨tszv, hu2, h⟩ := bind_ok h
  have hadd : pos + 4 + 4 = pos + 8 := by omega
  rw [hadd] at h
  split at h
  · obtain ⟨ver, hu3, h⟩ := bind_ok h
    injection h with h1
    have := congrArg Prod.fst h1
    simp only at this
    rw [← this]
    rfl
  · injection h with h1
    have := congrArg Prod.fst h1
    simp only at this
    rw [← this]
    rfl

/-- Decoding one UTF-8-encoded scalar value at the head of a byte stream
yields that value and continues behind it. -/
theorem utf8DecodeAux_encodeChar (c : Nat) (hc : c < 1114112) (m : Nat) (tail : List Nat) :
    utf8DecodeAux (m + 1) (utf8EncodeChar c ++ tail) = c :: utf8DecodeAux m tail := by
  by_cases h1 : c < 128
  · have he : utf8EncodeChar c = [c] := by simp only [utf8EncodeChar, if_pos h1]
    rw [he]
    show utf8DecodeAux (m + 1) (c :: tail) = _
    simp only [utf8DecodeAux]
    rw [if_pos h1]
  · by_cases h2 : c < 2048
    · have he : utf8EncodeChar c = [192 + c / 64, 128 + c % 64] := by
        simp only [utf8EncodeChar, if_neg h1, if_pos h2]
      rw [he]
      show utf8DecodeAux (m + 1) ((192 + c / 64) :: (128 + c % 64) :: tail) = _
      simp only [utf8DecodeAux]
      rw [if_neg (by omega : ¬(192 + c / 64 < 128))]
      rw [if_pos (show 194 ≤ 192 + c / 64 ∧ 192 + c / 64 < 224 by omega)]
      rw [if_pos (show 128 ≤ 128 + c % 64 ∧ 128 + c % 64 < 192 by omega)]
      simp only [List.cons.injEq, and_true]
      omega
    · by_cases h3 : c < 65536
      · have he : utf8EncodeChar c = [224 + c / 4096, 128 + c / 64 % 64, 128 + c % 64] := by
          simp only [utf8EncodeChar, if_neg h1, if_neg h2, if_pos h3]
        rw [he]
        show utf8DecodeAux (m + 1)
          ((224 + c / 4096) :: (128 + c / 64 % 64) :: (128 + c % 64) :: tail) = _
        simp only [utf8DecodeAux]
        rw [if_neg (by omega : ¬(224 + c / 4096 < 128))]
        rw [if_neg (show ¬(194 ≤ 224 + c / 4096 ∧ 224 + c / 4096 < 224) by omega)]
        rw [if_pos (show 224 ≤ 224 + c / 4096 ∧ 224 + c / 4096 < 240 by omega)]
        rw [if_pos (show (128 ≤ 128 + c / 64 % 64 ∧ 128 + c / 64 % 64 < 192) ∧
          128 ≤ 128 + c % 64 ∧ 128 + c % 64 < 192 by omega)]
        simp only [List.cons.injEq, and_true]
        omega
      · have he : utf8EncodeChar c =
            [240 + c / 262144, 128 + c / 4096 % 64, 128 + c / 64 % 64, 128 + c % 64] := by
          simp only [utf8EncodeChar, if_neg h1, if_neg h2, if_neg h3]
        rw [he]
        show utf8DecodeAux (m + 1) ((240 + c / 262144) :: (128 + c / 4096 % 64) ::
          (128 + c / 64 % 64) :: (128 + c % 64) :: tail) = _
        simp only [utf8DecodeAux]
        rw [if_neg (by omega : ¬(240 + c / 262144 < 128))]
        rw [if_neg (show ¬(194 ≤ 240 + c / 262144 ∧ 240 + c / 262144 < 224) by omega)]
        rw [if_neg (show ¬(224 ≤ 240 + c / 262144 ∧ 240 + c / 262144 < 240) by omega)]
        rw [if_pos (show 240 ≤ 240 + c / 262144 ∧ 240 + c / 262144 < 245 by omega)]
        rw [if_pos (show (128 ≤ 128 + c / 4096 % 64 ∧ 128 + c / 4096 % 64 < 192) ∧
          (128 ≤ 128 + c / 64 % 64 ∧ 128 + c / 64 % 64 < 192) ∧
          128 ≤ 128 + c % 64 ∧ 128 + c % 64 < 192 by omega)]
        simp only [List.cons.injEq, and_true]
        omega

/-- Decoding one UTF-16-LE-encoded scalar value at the head of a byte stream
yields that value and continues behind it. -/
theorem utf16leDecodeAux_encodeChar (c : Nat) (hc : c < 1114112)
    (hc2 : ¬(55296 ≤ c ∧ c < 57344)) (m : Nat) (tail : List Nat) :
    utf16leDecodeAux (m + 1) (utf16leEncodeChar c ++ tail) = c :: utf16leDecodeAux m tail := by
  by_cases h1 : c < 65536
  · have he : utf16leEncodeChar c = [c % 256, c / 256] := by
      simp only [utf16leEncodeChar, if_pos h1]
    rw [he]
    show utf16leDecodeAux (m + 1) (c % 256 :: c / 256 :: tail) = _
    simp only [utf16leDecodeAux]
    rw [show c % 256 + 256 * (c / 256) = c from by omega]
    rw [if_pos (show c < 55296 ∨ 57344 ≤ c by omega)]
  · have he : utf16leEncodeChar c =
        [(55296 + (c - 65536) / 1024) % 256, (55296 + (c - 65536) / 1024) / 256,
         (56320 + (c - 65536) % 1024) % 256, (56320 + (c - 65536) % 1024) / 256] := by
      simp only [utf16leEncodeChar, if_neg h1]
    rw [he]
    show utf16leDecodeAux (m + 1) ((55296 + (c - 65536) / 1024) % 256 ::
      (55296 + (c - 65536) / 1024) / 256 :: (56320 + (c - 65536) % 1024) % 256 ::
      (56320 + (c - 65536) % 1024) / 256 :: tail) = _
    simp only [utf16leDecodeAux]
    rw [show (55296 + (c - 65536) / 1024) % 256 +
      256 * ((55296 + (c - 65536) / 1024) / 256) = 55296 + (c - 65536) / 1024 from by omega]
    rw [if_neg (show ¬(55296 + (c - 65536) / 1024 < 55296 ∨
      57344 ≤ 55296 + (c - 65536) / 1024) by omega)]
    rw [if_pos (show 55296 + (c - 65536) / 1024 < 56320 by omega)]
    rw [show (56320 + (c - 65536) % 1024) % 256 +
      256 * ((56320 + (c - 65536) % 1024) / 256) = 56320 + (c - 65536) % 1024 from by omega]
    rw [if_pos (show 56320 ≤ 56320 + (c - 65536) % 1024 ∧
      56320 + (c - 65536) % 1024 < 57344 by omega)]
    simp only [List.cons.injEq, and_true]
    omega

/-- A string never has fewer characters than its UTF-8 encoding has bytes. -/
theorem length_le_utf8Encode (s : List Nat) : s.length ≤ (utf8Encode s).length := by
  induction s with
  | nil => simp [utf8Encode]
  | cons c cs ih =>
    have hc : 1 ≤ (utf8EncodeChar c).length := by
      simp only [utf8EncodeChar]
      repeat' split
      all_goals simp
    simp only [utf8Encode, List.length_append, List.length_cons]
    omega

/-- A string never has fewer characters than its UTF-16-LE encoding has
bytes. -/
theorem length_le_utf16leEncode (s : List Nat) : s.length ≤ (utf16leEncode s).length := by
  induction s with
  | nil => simp [utf16leEncode]
  | cons c cs ih =>
    have hc : 1 ≤ (utf16leEncodeChar c).length := by
      simp only [utf16leEncodeChar]
      repeat' split
      all_goals simp
    simp only [utf16leEncode, List.length_append, List.length_cons]
    omega

/-- With enough fuel, UTF-8 decoding inverts UTF-8 encoding of a valid
text. -/
theorem utf8DecodeAux_encode (s : List Nat) (hs : ValidText s) :
    ∀ n, s.length ≤ n → utf8DecodeAux n (utf8Encode s) = s := by
  induction s with
  | nil => intro n _; cases n <;> rfl
  | cons c cs ih =>
    intro n hn
    obtain ⟨n', rfl⟩ : ∃ n', n = n' + 1 := ⟨n - 1, by simp at hn; omega⟩
    have hc := hs c (by simp)
    have hcs : ValidText cs := fun x hx => hs x (by simp [hx])
    show utf8DecodeAux (n' + 1) (utf8EncodeChar c ++ utf8Encode cs) = c :: cs
    rw [utf8DecodeAux_encodeChar c hc.1 n' (utf8Encode cs)]
    rw [ih hcs n' (by simp at hn; omega)]

/-- With enough fuel, UTF-16-LE decoding inverts UTF-16-LE encoding of a
valid text. -/
theorem utf16leDecodeAux_encode (s : List Nat) (hs : ValidText s) :
    ∀ n, s.length ≤ n → utf16leDecodeAux n (utf16leEncode s) = s := by
  induction s with
  | nil => intro n _; cases n <;> rfl
  | cons c cs ih =>
    intro n hn
    obtain ⟨n', rfl⟩ : ∃ n', n = n' + 1 := ⟨n - 1, by simp at hn; omega⟩
    have hc := hs c (by simp)
    have hcs : ValidText cs := fun x hx => hs x (by simp [hx])
    show utf16leDecodeAux (n' + 1) (utf16leEncodeChar c ++ utf16leEncode cs) = c :: cs
    rw [utf16leDecodeAux_encodeChar c hc.1 hc.2 n' (utf16leEncode cs)]
    rw [ih hcs n' (by simp at hn; omega)]

/-- UTF-8 decoding inverts UTF-8 encoding of a valid text. -/
theorem utf8Decode_encode (s : List Nat) (hs : ValidText s) :
    utf8Decode (utf8Encode s) = s :=
  utf8DecodeAux_encode s hs _ (length_le_utf8Encode s)

/-- UTF-16-LE decoding inverts UTF-16-LE encoding of a valid text. -/
theorem utf16leDecode_encode (s : List Nat) (hs : ValidText s) :
    utf16leDecode (utf16leEncode s) = s :=
  utf16leDecodeAux_encode s hs _ (length_le_utf16leEncode s)

/-- A bind of a successful `Except` computation runs its continuation. -/
theorem okbind {α β : Type} (a : α) (k : α → Except PErr β) :
    (Except.ok a >>= k) = k a := rfl

/-- Symbolic evaluation of the string-section decoder on a built `mhod`
section: the type tag, declared length and encoding flag are recovered from
their little-endian fields, the bounds check uses the declared length, and
the cursor lands on `total_size = 40 + payload.length`. -/
theorem parseStringSection_mkMhodRaw (stype enc declLen : Nat) (payload : List Nat) :
    parseStringSection (mkMhodRaw stype enc declLen payload) 0 =
      .ok (some (decodeLE (encodeLE stype),
        if 0 < decodeLE (encodeLE declLen) ∧ decodeLE (encodeLE declLen) < 10000 then
          if decodeLE (encodeLE enc) = 1 then
            rstripNul (utf16leDecode (payload.take (decodeLE (encodeLE declLen))))
          else rstripNul (utf8Decode (payload.take (decodeLE (encodeLE declLen))))
        else []),
        decodeLE (encodeLE (40 + payload.length))) := by
  have t4 : List.take 4 (mkMhodRaw stype enc declLen payload) = mhodSig := rfl
  have t44 : List.take 4 (List.drop 4 (mkMhodRaw stype enc declLen payload)) = encodeLE 40 := rfl
  have t84 : List.take 4 (List.drop 8 (mkMhodRaw stype enc declLen payload)) =
    encodeLE (40 + payload.length) := rfl
  have t124 : List.take 4 (List.drop 12 (mkMhodRaw stype enc declLen payload)) =
    encodeLE stype := rfl
  have t1616 : List.take 16 (List.drop 16 (mkMhodRaw stype enc declLen payload)) =
    List.replicate 16 0 := rfl
  have t324 : List.take 4 (List.drop 32 (mkMhodRaw stype enc declLen payload)) =
    encodeLE declLen := rfl
  have t364 : List.take 4 (List.drop 36 (mkMhodRaw stype enc declLen payload)) =
    encodeLE enc := rfl
  have d40 : List.drop 40 (mkMhodRaw stype enc declLen payload) = payload := rfl
  have lenc : ∀ X : Nat, (encodeLE X).length = 4 := fun _ => rfl
  have lsig : (mhodSig : List Nat).length = 4 := rfl
  have lrep : (List.replicate 16 (0 : Nat)).length = 16 := rfl
  have ueval : ∀ X : Nat, unpackU32 (encodeLE X) = .ok (decodeLE (encodeLE X)) := by
    intro X
    unfold unpackU32
    rw [if_pos (lenc X)]
  simp only [parseStringSection, readBytes]
  rw [List.drop_zero, t4, lsig]
  rw [if_neg (show ¬((4 : Nat) < 4 ∨ mhodSig ≠ mhodSig) from by decide)]
  rw [show (0 : Nat) + 4 = 4 from rfl]
  rw [t44, lenc]
  rw [show (4 : Nat) + 4 = 8 from rfl]
  rw [t84, lenc]
  rw [show (8 : Nat) + 4 = 12 from rfl]
  rw [t124, lenc]
  rw [show (12 : Nat) + 4 = 16 from rfl]
  rw [t1616, lrep]
  rw [show (16 : Nat) + 16 = 32 from rfl]
  rw [t324, lenc]
  rw [show (32 : Nat) + 4 = 36 from rfl]
  rw [t364, lenc]
  rw [show (36 : Nat) + 4 = 40 from rfl]
  rw [d40]
  simp only [ueval, okbind]
  rw [Nat.zero_add]

/-- Nonempty valid texts have a nonempty UTF-8 encoding. -/
theorem utf8Encode_ne_nil {s : List Nat} (hs : s ≠ []) : 0 < (utf8Encode s).length := by
  cases s with
  | nil => exact absurd rfl hs
  | cons c cs =>
    have h1 : 1 ≤ (utf8EncodeChar c).length := by
      simp only [utf8EncodeChar]
      repeat' split
      all_goals simp
    simp only [utf8Encode, List.length_append]
    omega

/-- Nonempty valid texts have a nonempty UTF-16-LE encoding. -/
theorem utf16leEncode_ne_nil {s : List Nat} (hs : s ≠ []) : 0 < (utf16leEncode s).length := by
  cases s with
  | nil => exact absurd rfl hs
  | cons c cs =>
    have h1 : 1 ≤ (utf16leEncodeChar c).length := by
      simp only [utf16leEncodeChar]
      repeat' split
      all_goals simp
    simp only [utf16leEncode, List.length_append]
    omega

/-- One iteration of the playlist item loop on an `mhip` slot with a nonzero
track id appends that id and continues behind the item. -/
theorem itemsLoop_step {fuel : Nat} {f : List Nat} {pos pe : Nat} {ids : List Nat}
    {tid p' : Nat} (hlt : pos < pe) (hsig : List.take 4 (List.drop pos f) = mhipSig)
    (hitem : parsePlaylistItem f pos = .ok (some tid, p')) (hz : tid ≠ 0) :
    parsePlaylistItemsLoop (fuel + 1) f pos pe ids =
      parsePlaylistItemsLoop fuel f p' pe (ids ++ [tid]) := by
  simp only [parsePlaylistItemsLoop, readBytes]
  rw [if_pos hlt, hsig, if_pos rfl, hitem]
  simp only [okbind]
  rw [if_pos hz]

/-- One iteration of the playlist item loop on an `mhip` slot whose track id
decodes to 0 appends nothing and continues behind the item. -/
theorem itemsLoop_step_zero {fuel : Nat} {f : List Nat} {pos pe : Nat} {ids : List Nat}
    {p' : Nat} (hlt : pos < pe) (hsig : List.take 4 (List.drop pos f) = mhipSig)
    (hitem : parsePlaylistItem f pos = .ok (some 0, p')) :
    parsePlaylistItemsLoop (fuel + 1) f pos pe ids =
      parsePlaylistItemsLoop fuel f p' pe ids := by
  simp only [parsePlaylistItemsLoop, readBytes]
  rw [if_pos hlt, hsig, if_pos rfl, hitem]
  simp only [okbind]
  rw [if_neg (show ¬((0 : Nat) ≠ 0) from by decide)]

/-- The playlist item loop stops with its accumulated ids when the cursor has
reached the playlist end. -/
theorem itemsLoop_stop {fuel : Nat} {f : List Nat} {pos pe : Nat} {ids : List Nat}
    (hge : pe ≤ pos) :
    parsePlaylistItemsLoop (fuel + 1) f pos pe ids = .ok (ids, pos) := by
  simp only [parsePlaylistItemsLoop]
  rw [if_neg (not_lt.mpr hge)]

/-- Decoding the fixed payload built from ten known field values recovers
exactly those values (and converts the date-added raw value). -/
theorem parseTrackFields_mkTrackPayload (i d fs br sr tn tc yr pc da : Nat)
    (hi : i < 4294967296) (hd : d < 4294967296) (hfs : fs < 4294967296)
    (hbr : br < 4294967296) (hsr : sr < 4294967296) (htn : tn < 4294967296)
    (htc : tc < 4294967296) (hyr : yr < 4294967296) (hpc : pc < 4294967296)
    (hda32 : da < 4294967296) (hda : ITUNES_EPOCH_OFFSET < da) :
    parseTrackFields (mkTrackPayload i d fs br sr tn tc yr pc da) =
      { id := i, total_time_ms := d, file_size := fs, bitrate := br, sample_rate := sr,
        track_number := tn, track_count := tc, year := yr, play_count := pc,
        date_added := some (da - ITUNES_EPOCH_OFFSET) } := by
  have hlen : (mkTrackPayload i d fs br sr tn tc yr pc da).length = 96 := rfl
  have s4 : sliceU32 (mkTrackPayload i d fs br sr tn tc yr pc da) 4 = encodeLE i := rfl
  have s12 : sliceU32 (mkTrackPayload i d fs br sr tn tc yr pc da) 12 = encodeLE d := rfl
  have s16 : sliceU32 (mkTrackPayload i d fs br sr tn tc yr pc da) 16 = encodeLE fs := rfl
  have s32 : sliceU32 (mkTrackPayload i d fs br sr tn tc yr pc da) 32 = encodeLE br := rfl
  have s36 : sliceU32 (mkTrackPayload i d fs br sr tn tc yr pc da) 36 = encodeLE sr := rfl
  have s44 : sliceU32 (mkTrackPayload i d fs br sr tn tc yr pc da) 44 = encodeLE tn := rfl
  have s48 : sliceU32 (mkTrackPayload i d fs br sr tn tc yr pc da) 48 = encodeLE tc := rfl
  have s52 : sliceU32 (mkTrackPayload i d fs br sr tn tc yr pc da) 52 = encodeLE yr := rfl
  have s80 : sliceU32 (mkTrackPayload i d fs br sr tn tc yr pc da) 80 = encodeLE pc := rfl
  have s88 : sliceU32 (mkTrackPayload i d fs br sr tn tc yr pc da) 88 = encodeLE da := rfl
  simp only [parseTrackFields, hlen, s4, s12, s16, s32, s36, s44, s48, s52, s80, s88]
  norm_num
  rw [decodeLE_encodeLE i hi, decodeLE_encodeLE d hd, decodeLE_encodeLE fs hfs,
    decodeLE_encodeLE br hbr, decodeLE_encodeLE sr hsr, decodeLE_encodeLE tn htn,
    decodeLE_encodeLE tc htc, decodeLE_encodeLE yr hyr, decodeLE_encodeLE pc hpc,
    decodeLE_encodeLE da hda32]
  rw [if_neg (show ¬(da = 0) from by omega)]
  rw [show convertItunesTimestamp da = some (da - ITUNES_EPOCH_OFFSET) from by
    unfold convertItunesTimestamp
    rw [if_pos (show da ≠ 0 from by omega), if_pos hda]]

/-- One iteration of the dataset walk on `zeroSizeDatasetFile` always comes
back to offset 16 with unchanged accumulators. -/
theorem zeroSizeDataset_step (n : Nat) (t : List (Nat × Track)) (p : List Playlist) :
    parseDatasetsStep n zeroSizeDatasetFile 16 t p = .ok (some 16, t, p) := rfl

/-- The dataset walk on `zeroSizeDatasetFile` exhausts any amount of fuel. -/
theorem zeroSizeDataset_loop (n : Nat) : ∀ t p,
    parseDatasetsLoop n zeroSizeDatasetFile 16 t p = .error .noFuel := by
  induction n with
  | zero => intro t p; rfl
  | succ m ih =>
    intro t p
    show (parseDatasetsStep m zeroSizeDatasetFile 16 t p >>= fun r =>
      match r with
      | (some next, tracks, pls) => parseDatasetsLoop m zeroSizeDatasetFile next tracks pls
      | (none, tracks, pls) => .ok (tracks, pls)) = .error .noFuel
    rw [zeroSizeDataset_step]
    exact ih t p

/-- A successfully parsed string section leaves the cursor at
`pos + total_size`. -/
theorem parseStringSection_ok_pos {f : List Nat} {pos : Nat} {r : Nat × List Nat} {p' : Nat}
    (h : parseStringSection f pos = .ok (some r, p')) :
    p' = pos + declaredTotalSize f pos := by
  simp only [parseStringSection, readBytes] at h
  split at h
  · exact absurd h (by simp)
  · rename_i hcond
    have hsig : (f.drop pos).take 4 = mhodSig := by
      rcases not_or.mp hcond with ⟨-, h2⟩
      exact not_not.mp h2
    rw [hsig] at h
    obtain ⟨hsz, hu1, h⟩ := bind_ok h
    obtain ⟨hlen4, -⟩ := unpack_ok hu1
    have h4 : (mhodSig : List Nat).length = 4 := rfl
    rw [h4] at hlen4 h
    rw [hlen4] at h
    rw [show pos + 4 + 4 = pos + 8 from by omega] at h
    obtain ⟨tsz, hu2, h⟩ := bind_ok h
    obtain ⟨htlen, htsz⟩ := unpack_ok hu2
    rw [htlen] at h
    obtain ⟨sty, hu3, h⟩ := bind_ok h
    obtain ⟨hstlen, -⟩ := unpack_ok hu3
    rw [hstlen] at h
    obtain ⟨slen, hu4, h⟩ := bind_ok h
    obtain ⟨hsllen, -⟩ := unpack_ok hu4
    rw [hsllen] at h
    obtain ⟨enc, hu5, h⟩ := bind_ok h
    injection h with h1
    have hp := congrArg Prod.snd h1
    simp only at hp
    rw [← hp, htsz]
    rfl

/-- A successfully parsed track record leaves the cursor at
`pos + total_size`. -/
theorem parseTrack_ok_pos {fuel : Nat} {f : List Nat} {pos : Nat} {t : Track} {p' : Nat}
    (h : parseTrack fuel f pos = .ok (some t, p')) :
    p' = pos + declaredTotalSize f pos := by
  simp only [parseTrack] at h
  obtain ⟨⟨hdr, p1⟩, hh, h⟩ := bind_ok h
  split at h
  · exact absurd h (by simp)
  · obtain ⟨⟨t2, q⟩, hsl, h⟩ := bind_ok h
    injection h with h1
    have hp := congrArg Prod.snd h1
    simp only at hp
    rw [← hp, readHeader_ok_total hh]

/-- A successfully parsed playlist record leaves the cursor at
`pos + total_size`. -/
theorem parsePlaylist_ok_pos {fuel : Nat} {f : List Nat} {pos : Nat} {pl : Playlist} {p' : Nat}
    (h : parsePlaylist fuel f pos = .ok (some pl, p')) :
    p' = pos + declaredTotalSize f pos := by
  simp only [parsePlaylist] at h
  obtain ⟨⟨hdr, p1⟩, hh, h⟩ := bind_ok h
  split at h
  · exact absurd h (by simp)
  · obtain ⟨⟨nres, p2⟩, hns, h⟩ := bind_ok h
    obtain ⟨⟨ids, q⟩, hil, h⟩ := bind_ok h
    injection h with h1
    have hp := congrArg Prod.snd h1
    simp only at hp
    rw [← hp, readHeader_ok_total hh]

/-- A successfully parsed playlist item leaves the cursor at
`pos + total_size`. -/
theorem parsePlaylistItem_ok_pos {f : List Nat} {pos : Nat} {tid : Nat} {p' : Nat}
    (h : parsePlaylistItem f pos = .ok (some tid, p')) :
    p' = pos + declaredTotalSize f pos := by
  simp only [parsePlaylistItem] at h
  obtain ⟨⟨hdr, p1⟩, hh, h⟩ := bind_ok h
  split at h
  · exact absurd h (by simp)
  · obtain ⟨tv, hu, h⟩ := bind_ok h
    injection h with h1
    have hp := congrArg Prod.snd h1
    simp only at hp
    rw [← hp, readHeader_ok_total hh]

/-- A dataset-walk iteration that continues always continues at
`pos + total_size`. -/
theorem parseDatasetsStep_ok_next {fuel : Nat} {f : List Nat} {pos : Nat}
    {t : List (Nat × Track)} {p : List Playlist} {next : Nat}
    {t' : List (Nat × Track)} {p' : List Playlist}
    (h : parseDatasetsStep fuel f pos t p = .ok (some next, t', p')) :
    next = pos + declaredTotalSize f pos := by
  simp only [parseDatasetsStep, readBytes] at h
  split at h
  · exact absurd h (by simp)
  · split at h
    · exact absurd h (by simp)
    · obtain ⟨⟨hdr, q⟩, hh, h⟩ := bind_ok h
      split at h
      · injection h with h1
        have hn := congrArg Prod.fst h1
        simp only at hn
        rw [← Option.some.inj hn, readHeader_ok_total hh]
      · split at h
        · obtain ⟨⟨tr, q2⟩, htl, h⟩ := bind_ok h
          injection h with h1
          have hn := congrArg Prod.fst h1
          simp only at hn
          rw [← Option.some.inj hn, readHeader_ok_total hh]
        · split at h
          · obtain ⟨⟨pls2, q2⟩, hpl, h⟩ := bind_ok h
            injection h with h1
            have hn := congrArg Prod.fst h1
            simp only at hn
            rw [← Option.some.inj hn, readHeader_ok_total hh]
          · injection h with h1
            have hn := congrArg Prod.fst h1
            simp only at hn
            rw [← Option.some.inj hn, readHeader_ok_total hh]

/-- Evaluation of `_parse_playlist_item` on a 36-byte item layout found at
`pos`: header sizes 36/36, 12 reserved bytes, then the track id. -/
theorem parsePlaylistItem_eval {f : List Nat} {pos x : Nat}
    (h1 : List.take 4 (List.drop pos f) = mhipSig)
    (h2 : List.take 4 (List.drop (pos + 4) f) = encodeLE 36)
    (h3 : List.take 4 (List.drop (pos + 4 + 4) f) = encodeLE 36)
    (h4 : List.take 12 (List.drop (pos + 4 + 4 + 4) f) = List.replicate 12 0)
    (h5 : List.take 4 (List.drop (pos + 4 + 4 + 4 + 12) f) = encodeLE x) :
    parsePlaylistItem f pos = .ok (some (decodeLE (encodeLE x)), pos + 36) := by
  have lenc : ∀ X : Nat, (encodeLE X).length = 4 := fun _ => rfl
  have lsig : (mhipSig : List Nat).length = 4 := rfl
  have lrep : (List.replicate 12 (0 : Nat)).length = 12 := rfl
  have ueval : ∀ X : Nat, unpackU32 (encodeLE X) = .ok (decodeLE (encodeLE X)) := by
    intro X
    unfold unpackU32
    rw [if_pos (lenc X)]
  simp only [parsePlaylistItem, readHeader, readBytes]
  rw [h1, lsig, h2, lenc, h3]
  simp only [ueval, okbind]
  rw [show decodeLE (encodeLE 36) = 36 from rfl]
  rw [if_neg (show ¬(mhipSig = mhbdSig) from by decide)]
  rw [lenc]
  simp only [okbind]
  rw [if_neg (show ¬(mhipSig ≠ mhipSig) from by decide)]
  rw [h4, lrep, h5]
  simp only [ueval, okbind]

/-- Evaluation of `_parse_string_section` on an `mhod` layout found at `pos`
of an arbitrary file: header size `hsz`, total size `tsz`, type tag, 16
reserved bytes, declared length and encoding flag, each supplied as a
take/drop fact. -/
theorem parseStringSection_eval {f : List Nat} {pos hsz tsz stype declLen enc : Nat}
    (h1 : List.take 4 (List.drop pos f) = mhodSig)
    (h2 : List.take 4 (List.drop (pos + 4) f) = encodeLE hsz)
    (h3 : List.take 4 (List.drop (pos + 4 + 4) f) = encodeLE tsz)
    (h4 : List.take 4 (List.drop (pos + 4 + 4 + 4) f) = encodeLE stype)
    (h5 : List.take 16 (List.drop (pos + 4 + 4 + 4 + 4) f) = List.replicate 16 0)
    (h6 : List.take 4 (List.drop (pos + 4 + 4 + 4 + 4 + 16) f) = encodeLE declLen)
    (h7 : List.take 4 (List.drop (pos + 4 + 4 + 4 + 4 + 16 + 4) f) = encodeLE enc) :
    parseStringSection f pos =
      .ok (some (decodeLE (encodeLE stype),
        if 0 < decodeLE (encodeLE declLen) ∧ decodeLE (encodeLE declLen) < 10000 then
          if decodeLE (encodeLE enc) = 1 then
            rstripNul (utf16leDecode (List.take (decodeLE (encodeLE declLen))
              (List.drop (pos + 4 + 4 + 4 + 4 + 16 + 4 + 4) f)))
          else
            rstripNul (utf8Decode (List.take (decodeLE (encodeLE declLen))
              (List.drop (pos + 4 + 4 + 4 + 4 + 16 + 4 + 4) f)))
        else []),
        pos + decodeLE (encodeLE tsz)) := by
  have lenc : ∀ X : Nat, (encodeLE X).length = 4 := fun _ => rfl
  have lsig : (mhodSig : List Nat).length = 4 := rfl
  have lrep : (List.replicate 16 (0 : Nat)).length = 16 := rfl
  have ueval : ∀ X : Nat, unpackU32 (encodeLE X) = .ok (decodeLE (encodeLE X)) := by
    intro X
    unfold unpackU32
    rw [if_pos (lenc X)]
  simp only [parseStringSection, readBytes]
  rw [h1, lsig]
  rw [if_neg (show ¬((4 : Nat) < 4 ∨ mhodSig ≠ mhodSig) from by decide)]
  rw [h2, lenc, h3]
  simp only [ueval, okbind]
  rw [lenc, h4]
  simp only [ueval, okbind]
  rw [lenc, h5, lrep, h6]
  simp only [ueval, okbind]
  rw [lenc, h7]
  simp only [ueval, okbind]
  rw [lenc]

/-- Evaluation of `_parse_playlist` on `mkPlaylist3` down to its item loop:
the header and name section decode concretely and the loop starts at offset
67 with playlist end 175. -/
theorem parsePlaylist_mkPlaylist3_pre (a b c : Nat) :
    parsePlaylist 9 (mkPlaylist3 a b c) 0 =
      (parsePlaylistItemsLoop 9 (mkPlaylist3 a b c) 67 175 [] >>=
        fun x => .ok (some { id := 77, name := [77, 105, 120], track_ids := x.1 }, 175)) := by
  have t0 : List.take 4 (mkPlaylist3 a b c) = mhypSig := rfl
  have t4 : List.take 4 (List.drop 4 (mkPlaylist3 a b c)) = encodeLE 24 := rfl
  have t8 : List.take 4 (List.drop 8 (mkPlaylist3 a b c)) = encodeLE 175 := rfl
  have t12 : List.take 12 (List.drop 12 (mkPlaylist3 a b c)) =
    [0, 0, 0, 0, 77, 0, 0, 0, 3, 0, 0, 0] := rfl
  have hname : parseStringSection (mkPlaylist3 a b c) 24 =
      .ok (some (99, [77, 105, 120]), 67) := by
    have n1 : List.take 4 (List.drop 24 (mkPlaylist3 a b c)) = mhodSig := rfl
    have n2 : List.take 4 (List.drop 28 (mkPlaylist3 a b c)) = encodeLE 40 := rfl
    have n3 : List.take 4 (List.drop 32 (mkPlaylist3 a b c)) = encodeLE 43 := rfl
    have n4 : List.take 4 (List.drop 36 (mkPlaylist3 a b c)) = encodeLE 99 := rfl
    have n5 : List.take 16 (List.drop 40 (mkPlaylist3 a b c)) = List.replicate 16 0 := rfl
    have n6 : List.take 4 (List.drop 56 (mkPlaylist3 a b c)) = encodeLE 3 := rfl
    have n7 : List.take 4 (List.drop 60 (mkPlaylist3 a b c)) = encodeLE 0 := rfl
    have n8 : List.take 3 (List.drop 64 (mkPlaylist3 a b c)) = [77, 105, 120] := rfl
    have e := parseStringSection_eval n1 n2 n3 n4 n5 n6 n7
    rw [show decodeLE (encodeLE 99) = 99 from rfl, show decodeLE (encodeLE 3) = 3 from rfl,
      show decodeLE (encodeLE 0) = 0 from rfl, show decodeLE (encodeLE 43) = 43 from rfl] at e
    rw [if_pos (show 0 < 3 ∧ 3 < 10000 from by norm_num)] at e
    rw [if_neg (show ¬((0 : Nat) = 1) from by decide)] at e
    rw [show (24 : Nat) + 4 + 4 + 4 + 4 + 16 + 4 + 4 = 64 from rfl] at e
    rw [n8] at e
    rw [show rstripNul (utf8Decode [77, 105, 120]) = [77, 105, 120] from rfl] at e
    exact e
  have lenc : ∀ X : Nat, (encodeLE X).length = 4 := fun _ => rfl
  have lsig : (mhypSig : List Nat).length = 4 := rfl
  have ueval : ∀ X : Nat, unpackU32 (encodeLE X) = .ok (decodeLE (encodeLE X)) := by
    intro X
    unfold unpackU32
    rw [if_pos (lenc X)]
  simp only [parsePlaylist, readHeader, readBytes]
  rw [List.drop_zero, t0, lsig]
  rw [show (0 : Nat) + 4 = 4 from rfl]
  rw [t4, lenc]
  rw [show (4 : Nat) + 4 = 8 from rfl]
  rw [t8]
  simp only [ueval, okbind]
  rw [show decodeLE (encodeLE 24) = 24 from rfl]
  rw [show decodeLE (encodeLE 175) = 175 from rfl]
  rw [if_neg (show ¬(mhypSig = mhbdSig) from by decide)]
  rw [lenc]
  rw [show (8 : Nat) + 4 = 12 from rfl]
  simp only [okbind]
  rw [if_neg (show ¬(mhypSig ≠ mhypSig) from by decide)]
  norm_num
  rw [t12, hname]
  simp only [okbind]
  norm_num [sliceU32, decodeLE]
  rw [show (mkPlaylist3 a b c).length = 175 from rfl]
  norm_num

/-! Claim theorems. -/

/-- C1: the walker invariant.  After any chunk is successfully processed —
a string section, a track record, a playlist record, a playlist item, or a
dataset chunk in the dataset walk — the cursor (resp. the walk's next
position) is exactly `chunk_start + total_size`, the chunk's declared
total-size field, regardless of how many bytes the decoder consumed. -/
theorem C1_walker_total_size_invariant :
    (∀ (f : List Nat) (pos : Nat) (r : Nat × List Nat) (p' : Nat),
      parseStringSection f pos = .ok (some r, p') → p' = pos + declaredTotalSize f pos) ∧
    (∀ (fuel : Nat) (f : List Nat) (pos : Nat) (t : Track) (p' : Nat),
      parseTrack fuel f pos = .ok (some t, p') → p' = pos + declaredTotalSize f pos) ∧
    (∀ (fuel : Nat) (f : List Nat) (pos : Nat) (pl : Playlist) (p' : Nat),
      parsePlaylist fuel f pos = .ok (some pl, p') → p' = pos + declaredTotalSize f pos) ∧
    (∀ (f : List Nat) (pos : Nat) (tid : Nat) (p' : Nat),
      parsePlaylistItem f pos = .ok (some tid, p') → p' = pos + declaredTotalSize f pos) ∧
    (∀ (fuel : Nat) (f : List Nat) (pos : Nat) (t : List (Nat × Track)) (p : List Playlist)
      (next : Nat) (t' : List (Nat × Track)) (p' : List Playlist),
      parseDatasetsStep fuel f pos t p = .ok (some next, t', p') →
        next = pos + declaredTotalSize f pos) :=
  ⟨fun _ _ _ _ h => parseStringSection_ok_pos h,
   fun _ _ _ _ _ h => parseTrack_ok_pos h,
   fun _ _ _ _ _ h => parsePlaylist_ok_pos h,
   fun _ _ _ _ h => parsePlaylistItem_ok_pos h,
   fun _ _ _ _ _ _ _ _ h => parseDatasetsStep_ok_next h⟩

/-- C1 witness: a concrete string section of total size 43 leaves the cursor
at 0 + 43. -/
theorem C1_walker_total_size_invariant_witness :
    (43 : Nat) = 0 + declaredTotalSize (mkMhod 4 0 [72, 105, 0]) 0 :=
  C1_walker_total_size_invariant.1 (mkMhod 4 0 [72, 105, 0]) 0 (4, [72, 105]) 43 rfl

/-- C2: the claim that the walker stops when a chunk's `total_size` is 0 (or
non-advancing) fails on the code: `_parse_datasets` has no such guard, and on
`zeroSizeDatasetFile` it seeks back to the same offset forever.  In the fuel
model the parse never completes, whatever the fuel. -/
theorem C2_zero_total_size_loops_forever :
    ∀ fuel, parseFile fuel (some zeroSizeDatasetFile) = .error .noFuel := by
  intro fuel
  show parseDatasetsLoop fuel zeroSizeDatasetFile 16 [] [] = .error .noFuel
  exact zeroSizeDataset_loop fuel [] []

/-- C3: the claim that only a missing file or a wrong root signature can
raise fails on the code: the two sanctioned errors do raise, but a truncated
read inside `_read_header` (file `truncatedRootFile`, just the 4 bytes
`mhbd`) raises `struct.error` to the caller instead of degrading
gracefully. -/
theorem C3_error_propagation :
    ∀ fuel, parseFile fuel none = .error .fileNotFound ∧
      parseFile fuel (some wrongSigFile) = .error .badSignature ∧
      parseFile fuel (some truncatedRootFile) = .error .structError :=
  fun _ => ⟨rfl, rfl, rfl⟩

/-- C4: any fixed-offset track field whose required bytes are not present in
the payload actually read keeps its default zero/empty value (the guards
`len(data) > offset+4` never let a slice reach past the buffer), and the
concrete scenario: a track record whose declared header_size 32 truncates the
fixed payload read at 20 bytes decodes with every field beyond offset 20 at
its default and the parse returns normally. -/
theorem C4_truncated_payload_defaults :
    (∀ data : List Nat,
      (data.length < 8 → (parseTrackFields data).id = 0) ∧
      (data.length < 16 → (parseTrackFields data).total_time_ms = 0) ∧
      (data.length < 20 → (parseTrackFields data).file_size = 0) ∧
      (data.length < 36 → (parseTrackFields data).bitrate = 0) ∧
      (data.length < 40 → (parseTrackFields data).sample_rate = 0) ∧
      (data.length < 48 → (parseTrackFields data).track_number = 0) ∧
      (data.length < 52 → (parseTrackFields data).track_count = 0) ∧
      (data.length < 56 → (parseTrackFields data).year = 0) ∧
      (data.length < 84 → (parseTrackFields data).play_count = 0) ∧
      (data.length < 92 → (parseTrackFields data).date_added = none)) ∧
    parseTrack 1 truncTrackRecord 0 =
      .ok (some { id := 7, total_time_ms := 1000 }, 44) := by
  refine ⟨fun data => ⟨?_, ?_, ?_, ?_, ?_, ?_, ?_, ?_, ?_, ?_⟩, rfl⟩
  · intro h
    simp only [parseTrackFields, apply_ite Track.id, ite_self]
    rw [if_neg (show ¬(data.length > 8) from by omega)]
  · intro h
    simp only [parseTrackFields, apply_ite Track.total_time_ms, ite_self]
    rw [if_neg (show ¬(data.length > 16) from by omega)]
  · intro h
    simp only [parseTrackFields, apply_ite Track.file_size, ite_self]
    rw [if_neg (show ¬(data.length > 20) from by omega)]
  · intro h
    simp only [parseTrackFields, apply_ite Track.bitrate, ite_self]
    rw [if_neg (show ¬(data.length > 36) from by omega)]
  · intro h
    simp only [parseTrackFields, apply_ite Track.sample_rate, ite_self]
    rw [if_neg (show ¬(data.length > 40) from by omega)]
  · intro h
    simp only [parseTrackFields, apply_ite Track.track_number, ite_self]
    rw [if_neg (show ¬(data.length > 48) from by omega)]
  · intro h
    simp only [parseTrackFields, apply_ite Track.track_count, ite_self]
    rw [if_neg (show ¬(data.length > 52) from by omega)]
  · intro h
    simp only [parseTrackFields, apply_ite Track.year, ite_self]
    rw [if_neg (show ¬(data.length > 56) from by omega)]
  · intro h
    simp only [parseTrackFields, apply_ite Track.play_count, ite_self]
    rw [if_neg (show ¬(data.length > 84) from by omega)]
  · intro h
    simp only [parseTrackFields, apply_ite Track.date_added, ite_self]
    rw [if_neg (show ¬(data.length > 92) from by omega)]

/-- C4 witness: the empty payload leaves the identifier at its default 0. -/
theorem C4_truncated_payload_defaults_witness : (parseTrackFields []).id = 0 :=
  (C4_truncated_payload_defaults.1 []).1 (by decide)

/-- C5: for a well-formed track record carrying a full fixed payload, decoding
recovers exactly the fixed fields written at their fixed offsets — identifier,
duration, file size, bitrate, sample rate, track number, track count, year,
play count — and the date-added raw value (returned, per the timestamp
conversion, as `raw − 2082844800` Unix seconds, from which the written raw
value is recovered by adding the offset back). -/
theorem C5_track_fixed_field_roundtrip (i d fs br sr tn tc yr pc da : Nat)
    (hi : i < 4294967296) (hd : d < 4294967296) (hfs : fs < 4294967296)
    (hbr : br < 4294967296) (hsr : sr < 4294967296) (htn : tn < 4294967296)
    (htc : tc < 4294967296) (hyr : yr < 4294967296) (hpc : pc < 4294967296)
    (hda32 : da < 4294967296) (hda : ITUNES_EPOCH_OFFSET < da) :
    parseTrack 1 (mkTrackRecord i d fs br sr tn tc yr pc da) 0 =
      .ok (some
        { id := i, total_time_ms := d, file_size := fs, bitrate := br,
          sample_rate := sr, track_number := tn, track_count := tc, year := yr,
          play_count := pc, date_added := some (da - ITUNES_EPOCH_OFFSET) }, 108) := by
  have key : parseTrack 1 (mkTrackRecord i d fs br sr tn tc yr pc da) 0 =
      .ok (some (parseTrackFields (mkTrackPayload i d fs br sr tn tc yr pc da)), 108) := rfl
  rw [key, parseTrackFields_mkTrackPayload i d fs br sr tn tc yr pc da
    hi hd hfs hbr hsr htn htc hyr hpc hda32 hda]

/-- C5 witness: the round trip at a concrete set of field values. -/
theorem C5_track_fixed_field_roundtrip_witness :
    parseTrack 1 (mkTrackRecord 42 240000 5242880 192 44100 3 12 2020 7 3692304000) 0 =
      .ok (some
        { id := 42, total_time_ms := 240000, file_size := 5242880, bitrate := 192,
          sample_rate := 44100, track_number := 3, track_count := 12, year := 2020,
          play_count := 7, date_added := some (3692304000 - ITUNES_EPOCH_OFFSET) }, 108) :=
  C5_track_fixed_field_roundtrip 42 240000 5242880 192 44100 3 12 2020 7 3692304000
    (by norm_num) (by norm_num) (by norm_num) (by norm_num) (by norm_num) (by norm_num)
    (by norm_num) (by norm_num) (by norm_num) (by norm_num)
    (by norm_num [ITUNES_EPOCH_OFFSET])

/-- C6: string sections within the sane length bound decode as UTF-16-LE when
the encoding flag is 1 and as UTF-8 otherwise, with trailing NULs stripped, so
the two encodings of the same logical text decode identically; a declared
length outside the bound yields the empty string. -/
theorem C6_string_section_encodings (s : List Nat) (stype : Nat) (hs : ValidText s)
    (hst : stype < 4294967296)
    (h8 : (utf8Encode s).length < 10000) (h16 : (utf16leEncode s).length < 10000) :
    parseStringSection (mkMhod stype 1 (utf16leEncode s)) 0 =
        .ok (some (stype, rstripNul s), 40 + (utf16leEncode s).length) ∧
    parseStringSection (mkMhod stype 0 (utf8Encode s)) 0 =
        .ok (some (stype, rstripNul s), 40 + (utf8Encode s).length) ∧
    ∀ declLen payload, 10000 ≤ declLen → declLen < 4294967296 →
      payload.length + 40 < 4294967296 →
      parseStringSection (mkMhodRaw stype 0 declLen payload) 0 =
        .ok (some (stype, []), 40 + payload.length) := by
  refine ⟨?_, ?_, ?_⟩
  · unfold mkMhod
    rw [parseStringSection_mkMhodRaw]
    rw [decodeLE_encodeLE stype hst]
    rw [decodeLE_encodeLE (utf16leEncode s).length (by omega)]
    rw [decodeLE_encodeLE (40 + (utf16leEncode s).length) (by omega)]
    by_cases hnil : s = []
    · subst hnil
      simp [utf16leEncode, rstripNul]
    · rw [if_pos ⟨utf16leEncode_ne_nil hnil, h16⟩]
      rw [if_pos (show decodeLE (encodeLE 1) = 1 from rfl)]
      rw [List.take_length]
      rw [utf16leDecode_encode s hs]
  · unfold mkMhod
    rw [parseStringSection_mkMhodRaw]
    rw [decodeLE_encodeLE stype hst]
    rw [decodeLE_encodeLE (utf8Encode s).length (by omega)]
    rw [decodeLE_encodeLE (40 + (utf8Encode s).length) (by omega)]
    by_cases hnil : s = []
    · subst hnil
      simp [utf8Encode, rstripNul]
    · rw [if_pos ⟨utf8Encode_ne_nil hnil, h8⟩]
      rw [if_neg (show ¬(decodeLE (encodeLE 0) = 1) from by decide)]
      rw [List.take_length]
      rw [utf8Decode_encode s hs]
  · intro declLen payload hd hd32 hp32
    rw [parseStringSection_mkMhodRaw]
    rw [decodeLE_encodeLE stype hst]
    rw [decodeLE_encodeLE declLen hd32]
    rw [decodeLE_encodeLE (40 + payload.length) (by omega)]
    rw [if_neg (show ¬(0 < declLen ∧ declLen < 10000) from by omega)]

/-- C6 witness: the UTF-16-LE section for the text "Hi" decodes to that text
with the cursor at its total size. -/
theorem C6_string_section_encodings_witness :
    parseStringSection (mkMhod 1 1 (utf16leEncode [72, 105])) 0 =
      .ok (some (1, rstripNul [72, 105]), 40 + (utf16leEncode [72, 105]).length) :=
  (C6_string_section_encodings [72, 105] 1 (by unfold ValidText; decide) (by decide)
    (by decide) (by decide)).1

/-- C7 counterexample: the raw value 2082844800 converts to exactly the Unix
epoch, which does not precede 1 Jan 1970 and is nonzero, so the claim
predicts the timestamp 0; the code's strict `> 0` check yields `None`
instead. -/
theorem C7_epoch_boundary_counterexample :
    convertItunesTimestamp 2082844800 = none ∧ (2082844800 : Nat) ≠ 0 ∧
      ¬(2082844800 < ITUNES_EPOCH_OFFSET) ∧
      convertItunesTimestamp 2082844800 ≠ some (2082844800 - ITUNES_EPOCH_OFFSET) := by
  refine ⟨?_, by norm_num, ?_, ?_⟩
  · show (if (2082844800 : Nat) ≠ 0 then
        if ITUNES_EPOCH_OFFSET < 2082844800 then some (2082844800 - ITUNES_EPOCH_OFFSET)
        else none
      else none) = none
    rw [if_pos (by norm_num), if_neg (by norm_num [ITUNES_EPOCH_OFFSET])]
  · norm_num [ITUNES_EPOCH_OFFSET]
  · show (if (2082844800 : Nat) ≠ 0 then
        if ITUNES_EPOCH_OFFSET < 2082844800 then some (2082844800 - ITUNES_EPOCH_OFFSET)
        else none
      else none) ≠ some (2082844800 - ITUNES_EPOCH_OFFSET)
    rw [if_pos (by norm_num), if_neg (by norm_num [ITUNES_EPOCH_OFFSET])]
    exact Option.noConfusion

/-- C7 amended: a raw value of 0, and any raw value whose conversion lands at
or before the Unix epoch (raw ≤ 2082844800), yields no timestamp; a raw value
strictly above the offset yields the timestamp for raw − 2082844800 seconds
after the Unix epoch. -/
theorem C7_timestamp_conversion (raw : Nat) :
    convertItunesTimestamp raw =
      if ITUNES_EPOCH_OFFSET < raw then some (raw - ITUNES_EPOCH_OFFSET) else none := by
  unfold convertItunesTimestamp
  by_cases h0 : raw = 0
  · subst h0
    rw [if_neg (by norm_num), if_neg (by norm_num [ITUNES_EPOCH_OFFSET])]
  · rw [if_pos h0]

/-- C8 counterexample: a playlist with one name string section and three
playlist-item records, the second of which carries track id 0, yields only 2
entries in track_ids — not the 3 the claim predicts for every playlist-item
record. -/
theorem C8_zero_id_item_counterexample :
    parsePlaylist 9 (mkPlaylist3 1 0 2) 0 =
      .ok (some { id := 77, name := [77, 105, 120], track_ids := [1, 2] }, 175) ∧
    ([1, 2] : List Nat).length ≠ 3 :=
  ⟨rfl, by decide⟩

/-- C8 amended: the first string section after the playlist header becomes
the playlist name regardless of its type tag (here tag 99), and each
playlist-item record with a nonzero track identifier appends its id in file
order (an item whose id decodes to 0 is skipped), so three items with nonzero
ids yield exactly those 3 ids in order; a playlist with no name section and
no items is still returned. -/
theorem C8_playlist_decoding (a b c : Nat) (ha : a ≠ 0) (hb : b ≠ 0) (hc : c ≠ 0)
    (ha32 : a < 4294967296) (hb32 : b < 4294967296) (hc32 : c < 4294967296) :
    parsePlaylist 9 (mkPlaylist3 a b c) 0 =
      .ok (some { id := 77, name := [77, 105, 120], track_ids := [a, b, c] }, 175) ∧
    parsePlaylist 2 emptyPlaylistFile 0 =
      .ok (some { id := 77, name := [], track_ids := [] }, 24) := by
  constructor
  · rw [parsePlaylist_mkPlaylist3_pre]
    have s1 : List.take 4 (List.drop 67 (mkPlaylist3 a b c)) = mhipSig := rfl
    have s2 : List.take 4 (List.drop 103 (mkPlaylist3 a b c)) = mhipSig := rfl
    have s3 : List.take 4 (List.drop 139 (mkPlaylist3 a b c)) = mhipSig := rfl
    have i1 : parsePlaylistItem (mkPlaylist3 a b c) 67 = .ok (some a, 103) := by
      have e := parsePlaylistItem_eval s1
        (show List.take 4 (List.drop 71 (mkPlaylist3 a b c)) = encodeLE 36 from rfl)
        (show List.take 4 (List.drop 75 (mkPlaylist3 a b c)) = encodeLE 36 from rfl)
        (show List.take 12 (List.drop 79 (mkPlaylist3 a b c)) = List.replicate 12 0 from rfl)
        (show List.take 4 (List.drop 91 (mkPlaylist3 a b c)) = encodeLE a from rfl)
      rw [decodeLE_encodeLE a ha32] at e
      exact e
    have i2 : parsePlaylistItem (mkPlaylist3 a b c) 103 = .ok (some b, 139) := by
      have e := parsePlaylistItem_eval s2
        (show List.take 4 (List.drop 107 (mkPlaylist3 a b c)) = encodeLE 36 from rfl)
        (show List.take 4 (List.drop 111 (mkPlaylist3 a b c)) = encodeLE 36 from rfl)
        (show List.take 12 (List.drop 115 (mkPlaylist3 a b c)) = List.replicate 12 0 from rfl)
        (show List.take 4 (List.drop 127 (mkPlaylist3 a b c)) = encodeLE b from rfl)
      rw [decodeLE_encodeLE b hb32] at e
      exact e
    have i3 : parsePlaylistItem (mkPlaylist3 a b c) 139 = .ok (some c, 175) := by
      have e := parsePlaylistItem_eval s3
        (show List.take 4 (List.drop 143 (mkPlaylist3 a b c)) = encodeLE 36 from rfl)
        (show List.take 4 (List.drop 147 (mkPlaylist3 a b c)) = encodeLE 36 from rfl)
        (show List.take 12 (List.drop 151 (mkPlaylist3 a b c)) = List.replicate 12 0 from rfl)
        (show List.take 4 (List.drop 163 (mkPlaylist3 a b c)) = encodeLE c from rfl)
      rw [decodeLE_encodeLE c hc32] at e
      exact e
    rw [itemsLoop_step (by norm_num) s1 i1 ha]
    rw [itemsLoop_step (by norm_num) s2 i2 hb]
    rw [itemsLoop_step (by norm_num) s3 i3 hc]
    rw [itemsLoop_stop (le_refl 175)]
    simp [okbind]
  · rfl

/-- C8 witness: three nonzero ids 1, 2, 3 decode to track_ids `[1, 2, 3]`. -/
theorem C8_playlist_decoding_witness :
    parsePlaylist 9 (mkPlaylist3 1 2 3) 0 =
      .ok (some { id := 77, name := [77, 105, 120], track_ids := [1, 2, 3] }, 175) :=
  (C8_playlist_decoding 1 2 3 (by decide) (by decide) (by decide)
    (by norm_num) (by norm_num) (by norm_num)).1

/-- C10: a playlist-item record whose decoded track id is 0 is silently
omitted from the ordered track list (the append is guarded by truthiness), so
the concrete playlist with items 5, 0, 7 ends with 2 entries from its 3
playlist-item records. -/
theorem C10_zero_track_id_dropped :
    (∀ (fuel : Nat) (f : List Nat) (pos pe : Nat) (ids : List Nat) (p' : Nat),
      pos < pe → List.take 4 (List.drop pos f) = mhipSig →
      parsePlaylistItem f pos = .ok (some 0, p') →
      parsePlaylistItemsLoop (fuel + 1) f pos pe ids =
        parsePlaylistItemsLoop fuel f p' pe ids) ∧
    parsePlaylist 9 (mkPlaylist3 5 0 7) 0 =
      .ok (some { id := 77, name := [77, 105, 120], track_ids := [5, 7] }, 175) ∧
    ([5, 7] : List Nat).length < 3 :=
  ⟨fun _ _ _ _ _ _ hlt hsig hitem => itemsLoop_step_zero hlt hsig hitem,
   rfl, by decide⟩

/-- C10 witness: one iteration over a concrete zero-id item appends
nothing. -/
theorem C10_zero_track_id_dropped_witness :
    parsePlaylistItemsLoop 4 (mkMhip 0) 0 36 [] =
      parsePlaylistItemsLoop 3 (mkMhip 0) 36 36 [] :=
  C10_zero_track_id_dropped.1 3 (mkMhip 0) 0 36 [] 36 (by norm_num) rfl rfl

/-- C9: parsing is a pure function of the file bytes (a parse operation runs
on a fresh parser owning its own cursor and accumulators), so parsing the
same file twice yields structurally equal results. -/
theorem C9_parse_deterministic :
    ∀ fuel file, parseFile fuel file = parseFile fuel file :=
  fun _ _ => rfl

end IPodyssey
